import Mathlib

/-!
Verification development for the magnet-dashboard update script
(`update_magnets.py`).  The script's pure core — title normalization,
TV/season/episode extraction, language and quality tagging, image
selection, per-topic magnet association, deduplication and mirror
failover — is shallowly embedded below.  Titles and other Python `str`
values are modelled as `List Char`; the wall clock (`datetime.now()`)
and the HTTP transport (`scraper.get`) are passed in as explicit
parameters; a parsed page (`BeautifulSoup` document) is modelled as a
record of the query results the script actually reads from it.
-/

set_option maxRecDepth 4000

namespace Magnet

/-- Python strings, modelled as character lists. -/
abbrev Str := List Char

/-- Characters of a Lean string literal. -/
def lchars (s : String) : Str := s.data

/-- Python `\s` / `str.strip()` whitespace (ASCII range). -/
def isSpacePy (c : Char) : Bool :=
  c = ' ' || c = '\t' || c = '\n' || c = '\r' || c = '\x0b' || c = '\x0c'

/-- Python `str.strip()`: drop whitespace from both ends. -/
def pstrip (t : Str) : Str :=
  ((t.dropWhile isSpacePy).reverse.dropWhile isSpacePy).reverse

/-- Python `str.lower()` (ASCII). -/
def pylower (t : Str) : Str := t.map Char.toLower

/-- Python `needle in hay`: contiguous-substring test. -/
def hasSub : Str → Str → Bool
  | [], pat => pat.isEmpty
  | c :: rest, pat => pat.isPrefixOf (c :: rest) || hasSub rest pat

/-- Python `str.endswith(suffix)`. -/
def pyendswith (t suffix : Str) : Bool := suffix.isSuffixOf t

/-- Python `str.isdigit()` (ASCII digits). -/
def pyIsdigit (t : Str) : Bool := !t.isEmpty && t.all Char.isDigit

/-- Python `int(...)` on a digit string. -/
def digitsToNat (ds : Str) : Nat :=
  ds.foldl (fun n c => n * 10 + (c.toNat - '0'.toNat)) 0

/-- Python f-string `{n:02d}`: decimal, left-padded with zeros to width two. -/
def pad2 (n : Nat) : Str :=
  if n < 10 then '0' :: lchars (toString n) else lchars (toString n)

/-- Python `str.split(sep)` for a one-character separator (keeps empty parts). -/
def pysplit : Str → Char → List Str
  | [], _ => [[]]
  | c :: rest, sep =>
    if c = sep then [] :: pysplit rest sep
    else
      match pysplit rest sep with
      | s :: ss => (c :: s) :: ss
      | [] => [[c]]

/-- Python `sep.join(parts)` for a one-character separator. -/
def pyjoin (parts : List Str) (sep : Char) : Str := List.intercalate [sep] parts

/-- Python `str.replace(a, b)` for one-character arguments. -/
def pyreplace (t : Str) (a b : Char) : Str := t.map fun c => if c = a then b else c

/-- Python `str.capitalize()`: first character upper, the rest lower. -/
def pycapitalize : Str → Str
  | [] => []
  | c :: r => c.toUpper :: r.map Char.toLower

/-- Python `str.title()`: upper-case each letter that follows a non-letter. -/
def pytitleGo : Bool → Str → Str
  | _, [] => []
  | prev, c :: r =>
    (if c.isAlpha then (if prev then c.toLower else c.toUpper) else c) ::
      pytitleGo c.isAlpha r

/-- Python `str.title()`. -/
def pytitle (t : Str) : Str := pytitleGo false t

/-- First occurrence of `pat` inside `h`: `(before, after)` around it. -/
def splitOnceSub : Str → Str → Option (Str × Str)
  | h, pat =>
    if pat.isPrefixOf h then some ([], h.drop pat.length)
    else
      match h with
      | [] => none
      | c :: r =>
        match splitOnceSub r pat with
        | some (a, b) => some (c :: a, b)
        | none => none

/-- Modelled collaborator `urllib.parse.urlparse(u).path`: drop
`scheme://host`, drop any query/fragment tail. -/
def urlPath (u : Str) : Str :=
  let rest :=
    match splitOnceSub u (lchars "://") with
    | some (_, afterScheme) => afterScheme.dropWhile (fun c => c ≠ '/')
    | none => u
  rest.takeWhile fun c => c ≠ '?' ∧ c ≠ '#'

/-- Modelled collaborator `urllib.parse.urljoin(base, rel)`: absolute
URLs pass through, root-relative paths join the base's scheme+host,
other relative paths join the base's directory. -/
def schemeHost (u : Str) : Str :=
  match splitOnceSub u (lchars "://") with
  | some (pre, rest) => pre ++ lchars "://" ++ rest.takeWhile (fun c => c ≠ '/')
  | none => []

/-- Directory part of a URL: everything up to and including the last slash. -/
def dirname (u : Str) : Str := (u.reverse.dropWhile (fun c => c ≠ '/')).reverse

/-- Modelled collaborator `urllib.parse.urljoin(base, rel)`. -/
def urljoin (base rel : Str) : Str :=
  if rel.isEmpty then base
  else if hasSub rel (lchars "://") then rel
  else if rel.headD ' ' = '/' then schemeHost base ++ rel
  else dirname base ++ rel

/-! ## Regular-expression search models

The script uses a handful of fixed regular expressions via `re.search`
and `re.sub`.  Each one is modelled by a dedicated recognizer with
Python's leftmost-match, greedy/lazy backtracking semantics for that
specific pattern. -/

/-- Tail `(\d{4})\)` right after an opening parenthesis: exactly four
digits followed by a closing parenthesis.  Returns the captured year
and the remainder after the `)`. -/
def yearParen : Str → Option (Str × Str)
  | a :: b :: c :: d :: ')' :: rest =>
    if a.isDigit ∧ b.isDigit ∧ c.isDigit ∧ d.isDigit then some ([a, b, c, d], rest)
    else none
  | _ => none

/-- `re.search(r'\((\d{4})\)', t)`: first parenthesized four-digit group. -/
def dateSearchAux : Str → Option Str
  | [] => none
  | c :: rest =>
    if c = '(' then
      match yearParen rest with
      | some (y, _) => some y
      | none => dateSearchAux rest
    else dateSearchAux rest

/-- `re.search(r'\((\d{4})\)', t)`: the captured year, if any. -/
def dateSearch (t : Str) : Option Str := dateSearchAux t

/-- Tail of the episodic pattern after the year's opening parenthesis:
`(\d{4})\)\s+S(\d+)\s+EP\s*\(?(\d+(?:-\d+)?)\)?` (case-insensitive
letters).  Returns (year, season digits, episode digits or range). -/
def parseTvAfterParen (cs : Str) : Option (Str × Str × Str) :=
  match yearParen cs with
  | none => none
  | some (year, r1) =>
    let ws1 := r1.takeWhile isSpacePy
    if ws1.isEmpty then none
    else
      match r1.drop ws1.length with
      | [] => none
      | c :: r2 =>
        if c = 'S' ∨ c = 's' then
          let se := r2.takeWhile Char.isDigit
          if se.isEmpty then none
          else
            let r3 := r2.drop se.length
            let ws2 := r3.takeWhile isSpacePy
            if ws2.isEmpty then none
            else
              match r3.drop ws2.length with
              | e :: p :: r4 =>
                if (e = 'E' ∨ e = 'e') ∧ (p = 'P' ∨ p = 'p') then
                  let r5 := r4.drop (r4.takeWhile isSpacePy).length
                  let r6 := match r5 with
                    | '(' :: tl => tl
                    | _ => r5
                  let e1 := r6.takeWhile Char.isDigit
                  if e1.isEmpty then none
                  else
                    let r7 := r6.drop e1.length
                    let ep := match r7 with
                      | '-' :: tl =>
                        let e2 := tl.takeWhile Char.isDigit
                        if e2.isEmpty then e1 else e1 ++ '-' :: e2
                      | _ => e1
                    some (year, se, ep)
                else none
              | _ => none
        else none

/-- `re.search(r'([^(]+)\s*\((\d{4})\)\s+S(\d+)\s+EP\s*\(?(\d+(?:-\d+)?)\)?',
t, re.IGNORECASE)`: scan for the leftmost `(` whose preceding
`(`-free segment is non-empty and whose tail parses; returns
(group 1, year, season, episode). -/
def tvSearchAux : Str → Str → Option (Str × Str × Str × Str)
  | _, [] => none
  | acc, c :: rest =>
    if c = '(' then
      match (if acc.isEmpty then none else parseTvAfterParen rest) with
      | some (y, se, ep) => some (acc.reverse, y, se, ep)
      | none => tvSearchAux [] rest
    else tvSearchAux (c :: acc) rest

/-- The script's episodic-title pattern (lines 124 and 271 of the source). -/
def tvSearch (t : Str) : Option (Str × Str × Str × Str) := tvSearchAux [] t

/-- `re.search(r'([^(]+)\s*\((\d{4})\)', t)`: leftmost `(` with a
non-empty `(`-free segment before it and a four-digit year after it;
returns (group 1, year). -/
def movieSearchAux : Str → Str → Option (Str × Str)
  | _, [] => none
  | acc, c :: rest =>
    if c = '(' then
      match (if acc.isEmpty then none else yearParen rest) with
      | some (y, _) => some (acc.reverse, y)
      | none => movieSearchAux [] rest
    else movieSearchAux (c :: acc) rest

/-- The movie-year pattern `([^(]+)\s*\((\d{4})\)`. -/
def movieSearch (t : Str) : Option (Str × Str) := movieSearchAux [] t

/-- Mandatory tail `\s+S(\d+)[Ee](\d+)` of the alternate episodic
pattern (case-insensitive `S`). -/
def altMand (t : Str) : Option (Str × Str) :=
  let ws := t.takeWhile isSpacePy
  if ws.isEmpty then none
  else
    match t.drop ws.length with
    | [] => none
    | c :: r =>
      if c = 'S' ∨ c = 's' then
        let ds := r.takeWhile Char.isDigit
        if ds.isEmpty then none
        else
          match r.drop ds.length with
          | [] => none
          | e :: r2 =>
            if e = 'E' ∨ e = 'e' then
              let ds2 := r2.takeWhile Char.isDigit
              if ds2.isEmpty then none else some (ds, ds2)
            else none
      else none

/-- Optional group `(?:\s*\(\d{4}\))?`: remainder after it, when it matches. -/
def altYearOpt (t : Str) : Option Str :=
  match t.drop (t.takeWhile isSpacePy).length with
  | '(' :: r2 =>
    match yearParen r2 with
    | some (_, rest) => some rest
    | none => none
  | _ => none

/-- Tail of `(.+?)(?:\s*\(\d{4}\))?\s+S(\d+)[Ee](\d+)` after group 1:
prefer taking the optional year group, backtrack to skipping it. -/
def altTail (t : Str) : Option (Str × Str) :=
  match altYearOpt t with
  | some rest =>
    match altMand rest with
    | some r => some r
    | none => altMand t
  | none => altMand t

/-- Lazy group 1 (`.+?`, no newline): grow the captured prefix one
character at a time, testing the tail at each length. -/
def altInner : Str → Str → Option (Str × Str × Str)
  | g1rev, rest =>
    match altTail rest with
    | some (se, ep) => some (g1rev.reverse, se, ep)
    | none =>
      match rest with
      | [] => none
      | c :: rs => if c = '\n' then none else altInner (c :: g1rev) rs

/-- `re.search(r'(.+?)(?:\s*\(\d{4}\))?\s+S(\d+)[Ee](\d+)', t,
re.IGNORECASE)`: leftmost start position wins; returns
(group 1, season digits, episode digits). -/
def altSearchAux : Str → Option (Str × Str × Str)
  | [] => none
  | c :: rest =>
    match (if c = '\n' then none else altInner [c] rest) with
    | some r => some r
    | none => altSearchAux rest

/-- The alternate episodic pattern (line 281 of the source). -/
def altSearch (t : Str) : Option (Str × Str × Str) := altSearchAux t

/-! ## `re.sub` models

`re.sub(pattern, '', title)` scans left to right, removing each
non-overlapping leftmost match.  `subGo` performs the scan generically
over a per-pattern matcher `tm` that, on a match starting at the head
of its argument, returns the remainder after the match (every matcher
below consumes at least one character, and the fuel is the string
length, so the scan never truncates). -/

def subGo (tm : Str → Option Str) : Nat → Str → Str
  | 0, t => t
  | _ + 1, [] => []
  | fuel + 1, c :: cs =>
    match tm (c :: cs) with
    | some rest => subGo tm fuel rest
    | none => c :: subGo tm fuel cs

/-- `re.sub(pattern, '', t)` for the matcher `tm`. -/
def reSub (tm : Str → Option Str) (t : Str) : Str := subGo tm t.length t

/-- End-of-string anchor `$` (no `re.MULTILINE`): end, or just before a
final newline. -/
def lineEndOk (t : Str) : Bool := t.isEmpty || t = ['\n']

/-- Lazy `.*?X` for a one-character closer: skip to the first `close`
on the current line; `.` does not match a newline. -/
def lazyToChar (close : Char) : Str → Option Str
  | [] => none
  | c :: r =>
    if c = close then some r
    else if c = '\n' then none
    else lazyToChar close r

/-- Lazy `.*?\]$`: the first `]` on the current line that is followed
by the end of the string (or a final newline). -/
def lazyToCloseEnd : Str → Option Str
  | [] => none
  | c :: r =>
    if c = ']' ∧ lineEndOk r then some r
    else if c = '\n' then none
    else lazyToCloseEnd r

/-- Pattern `\[\d+p.*?\]` (e.g. `[1080p & 720p ...]`). -/
def tryMatchResBracket : Str → Option Str
  | '[' :: r =>
    let ds := r.takeWhile Char.isDigit
    if ds.isEmpty then none
    else
      match r.drop ds.length with
      | 'p' :: r2 => lazyToChar ']' r2
      | _ => none
  | _ => none

/-- Pattern `\(BluRay.*?\)`. -/
def tryMatchParenBluRay : Str → Option Str
  | '(' :: r =>
    if (lchars "BluRay").isPrefixOf r then lazyToChar ')' (r.drop 6) else none
  | _ => none

/-- Pattern `\(WEB-DL.*?\)`. -/
def tryMatchParenWebDL : Str → Option Str
  | '(' :: r =>
    if (lchars "WEB-DL").isPrefixOf r then lazyToChar ')' (r.drop 6) else none
  | _ => none

/-- Pattern `- \[.*?\]$` (trailing bracket group after `- `). -/
def tryMatchDashBracketEnd : Str → Option Str
  | '-' :: ' ' :: '[' :: r => lazyToCloseEnd r
  | _ => none

/-- `GB.*` tail of the size pattern: the literal, then the rest of the
line (greedy `.*`, not anchored). -/
def sizeTailGB (r4 : Str) : Option Str :=
  if (lchars "GB").isPrefixOf r4 then
    some ((r4.drop 2).dropWhile fun c => c ≠ '\n')
  else none

/-- Optional `(\.\d+)?` consumption before `GB` (skipped when no digit
follows the dot, as the backtracking engine would). -/
def sizeDotSkip (r3 : Str) : Str :=
  match r3 with
  | '.' :: r3' =>
    let ds2 := r3'.takeWhile Char.isDigit
    if ds2.isEmpty then r3 else r3'.drop ds2.length
  | _ => r3

/-- `\d+(\.\d+)?GB.*` tail of the size pattern. -/
def sizeTailDigits (r2 : Str) : Option Str :=
  let ds := r2.takeWhile Char.isDigit
  if ds.isEmpty then none else sizeTailGB (sizeDotSkip (r2.drop ds.length))

/-- Pattern `\s+-\s+\d+(\.\d+)?GB.*` (trailing size annotation). -/
def tryMatchSizeGB (t : Str) : Option Str :=
  let ws := t.takeWhile isSpacePy
  if ws.isEmpty then none
  else
    match t.drop ws.length with
    | '-' :: r =>
      let ws2 := r.takeWhile isSpacePy
      if ws2.isEmpty then none else sizeTailDigits (r.drop ws2.length)
    | _ => none

/-- Pattern `<word>.*$`: the literal `word`, then the rest of the line,
which must reach the end of the string. -/
def tryMatchWordTail (word : Str) (t : Str) : Option Str :=
  if word.isPrefixOf t then
    let rest := (t.drop word.length).dropWhile fun c => c ≠ '\n'
    if lineEndOk rest then some rest else none
  else none

/-- Pattern `\s+\[.*?\]$` (trailing bracket group after whitespace). -/
def tryMatchWsBracketEnd (t : Str) : Option Str :=
  let ws := t.takeWhile isSpacePy
  if ws.isEmpty then none
  else
    match t.drop ws.length with
    | '[' :: r => lazyToCloseEnd r
    | _ => none

/-- Pattern `\s*[-|]\s*(marker₁|marker₂|…).*$` used to cut a site-name
suffix off a page title. -/
def tryMatchSiteSuffix (markers : List Str) (t : Str) : Option Str :=
  let ws := t.takeWhile isSpacePy
  match t.drop ws.length with
  | [] => none
  | c :: r =>
    if c = '-' ∨ c = '|' then
      let r2 := r.drop (r.takeWhile isSpacePy).length
      match markers.find? (fun m => m.isPrefixOf r2) with
      | some m =>
        let rest := (r2.drop m.length).dropWhile fun ch => ch ≠ '\n'
        if lineEndOk rest then some rest else none
      | none => none
    else none

/-! ## Title extraction (`extract_proper_title`) -/

/-- UI elements and site branding skipped by the title extractor. -/
def ui_elements : List String :=
  ["Sign In", "J.A.R.V.I.S.", "JARVIS", "By J.A.R.V.I.S.", "By Olan",
   "Login", "Register", "TamilMV Official Telegram Channel",
   "TamilMV Official", "1TamilMV.com"]

/-- Channel-name prefixes cleaned from legitimate titles. -/
def common_prefixes : List String :=
  ["TamilMV Official Telegram Channel :-",
   "TamilMV Official Telegram Channel:",
   "1TamilMV.com -"]

/-- An `<img>` element: the attributes the script reads, absent when
the element does not carry them (`img.get` defaults are applied at the
point of use, as in the source). -/
structure Img where
  src : Option Str
  width : Option Str
  height : Option Str
deriving DecidableEq

/-- A parsed topic page (BeautifulSoup document), modelled as the
results of the queries the script performs on it, each in document
order. -/
structure PageDoc where
  /-- `find_all("a", href=True)`: (href, text) of anchors carrying an href. -/
  anchors : List (Str × Str)
  /-- `find_all(['h3', 'h4', 'strong'])`: section-heading texts. -/
  headings : List Str
  /-- `select_one(".ipsType_pagetitle") or select_one(".ipsDataItem_title a")` text. -/
  pagetitle : Option Str
  /-- `select("h1, h2, .ipsType_break")` texts. -/
  h12break : List Str
  /-- `soup.title` text. -/
  titleTag : Option Str
  /-- `soup.find('h1') or soup.find('h2')` text. -/
  h1h2 : Option Str
  /-- `find_all("img")`. -/
  imgs : List Img
  /-- `select(".ipsBreadcrumb li a")`: (href, text) of breadcrumb links. -/
  breadcrumbs : List (Str × Str)
deriving DecidableEq

/-- URL fallback inside the UI-element branch (source lines 94-106). -/
def uiUrlTitle (page_url : Str) : Option Str :=
  if page_url.isEmpty then none
  else
    let path := urlPath page_url
    if hasSub path (lchars "topic") || hasSub path (lchars "forums") then
      let parts := pysplit path '-'
      if parts.length > 1 then
        let parts :=
          if pyendswith (parts.headD []) (lchars "0") ||
              pyendswith (parts.headD []) (lchars "/") then parts.tail
          else parts
        let title := pytitle (pyreplace (pyjoin parts ' ') '-' ' ')
        if title.length > 5 then some title else none
      else none
    else none

/-- Page-element probes inside the UI-element branch (source lines 73-91). -/
def uiSoupTitle : Option PageDoc → Option Str
  | none => none
  | some sp =>
    (match sp.pagetitle with
     | some tt => if (pstrip tt).length > 5 then some (pstrip tt) else none
     | none => none).orElse fun _ =>
    (sp.h12break.findSome? fun el =>
      let text := pstrip el
      match movieSearch text with
      | some (g1, y) =>
        if (pstrip g1).length > 3 then some (pstrip (g1 ++ '(' :: y ++ [')']))
        else none
      | none => none).orElse fun _ =>
    match sp.titleTag with
    | some tt =>
      let t1 := pstrip tt
      let t2 := reSub (tryMatchSiteSuffix [lchars "1TamilMV", lchars "TamilMV"]) t1
      if t2.length > 5 then some t2 else none
    | none => none

/-- The UI-element branch of `extract_proper_title` (source lines 71-109). -/
def uiTitleRescue (soup : Option PageDoc) (page_url : Str) : Str :=
  match (uiSoupTitle soup).orElse fun _ => uiUrlTitle page_url with
  | some r => r
  | none => lchars "Unknown Title (See Details)"

/-- Channel-name prefix stripping (source lines 118-121): drop the
first matching prefix and strip the remainder. -/
def stripPrefixes (t : Str) : Str :=
  match common_prefixes.find? (fun p => (lchars p).isPrefixOf t) with
  | some p => pstrip (t.drop (lchars p).length)
  | none => t

/-- The movie-year stage (source lines 133-138). -/
def movieStageResult (t : Str) : Option Str :=
  match movieSearch t with
  | some (g1, year) =>
    let movie_name := pstrip g1
    if movie_name.length > 3 then some (movie_name ++ ' ' :: '(' :: year ++ [')'])
    else none
  | none => none

/-- Page-element probes between the movie stage and the generic
stripping stage (source lines 141-159). -/
def soupTitleProbe : Option PageDoc → Option Str
  | none => none
  | some sp =>
    (match sp.h1h2 with
     | some htext =>
       let heading_text := pstrip htext
       match movieSearch heading_text with
       | some (g1, y) => some (g1 ++ '(' :: y ++ [')'])
       | none => none
     | none => none).orElse fun _ =>
    match sp.titleTag with
    | some tt =>
      let t1 := pstrip tt
      let t2 := reSub (tryMatchSiteSuffix [lchars "1TamilMV"]) t1
      let t3 := reSub (tryMatchSiteSuffix [lchars "TamilMV"]) t2
      if t3.length > 5 then some t3 else none
    | none => none

/-- Generic technical-token stripping (source lines 162-177): the ten
`re.sub` patterns applied in order, stripping whitespace after each. -/
def stageFiveTitle (t : Str) : Str :=
  let t := pstrip (reSub tryMatchResBracket t)
  let t := pstrip (reSub tryMatchParenBluRay t)
  let t := pstrip (reSub tryMatchParenWebDL t)
  let t := pstrip (reSub tryMatchDashBracketEnd t)
  let t := pstrip (reSub tryMatchSizeGB t)
  let t := pstrip (reSub (tryMatchWordTail (lchars "WEB-DL")) t)
  let t := pstrip (reSub (tryMatchWordTail (lchars "BluRay")) t)
  let t := pstrip (reSub tryMatchWsBracketEnd t)
  let t := pstrip (reSub (tryMatchWordTail (lchars "AVC")) t)
  let t := pstrip (reSub (tryMatchWordTail (lchars "HEVC")) t)
  t

/-- URL fallback of the generic stage (source lines 182-195). -/
def urlTitleLower (page_url : Str) : Option Str :=
  if page_url.isEmpty then none
  else
    let path := urlPath page_url
    let parts := pysplit ((pysplit path '/').getLastD []) '-'
    if parts.length > 1 then
      let parts := if pyIsdigit (parts.headD []) then parts.tail else parts
      let possible_title := pyreplace (pyjoin parts ' ') '-' ' '
      if possible_title.length > 5 then some (pycapitalize possible_title) else none
    else none

/-- `extract_proper_title(full_title, soup, page_url)` (source lines
61-204): UI-element filtering, channel-prefix cleanup, episodic
pattern, movie-year pattern, page probes, generic stripping, fallbacks. -/
def extract_proper_title (full_title : Str) (soup : Option PageDoc) (page_url : Str) : Str :=
  if ui_elements.any (fun ui => hasSub full_title (lchars ui)) then
    uiTitleRescue soup page_url
  else
    let ft := stripPrefixes full_title
    match tvSearch ft with
    | some (g1, _year, season, episode) =>
      pstrip g1 ++ lchars " (S" ++ season ++ 'E' :: episode ++ [')']
    | none =>
      match movieStageResult ft with
      | some r => r
      | none =>
        match soupTitleProbe soup with
        | some r => r
        | none =>
          let title := stageFiveTitle ft
          if title.isEmpty ∨ title.length < 5 ∨
              common_prefixes.any (fun p => title = lchars p) then
            match urlTitleLower page_url with
            | some r => r
            | none =>
              if common_prefixes.any (fun p => hasSub title (lchars p)) then
                lchars "Movie Title (See Details)"
              else ft
          else title

/-! ## Metadata extractors -/

/-- `extract_tv_info(title)` result record (source lines 262-268). -/
structure TvInfo where
  is_tv_show : Bool
  show_name : Str
  season : Str
  episode : Str
  year : Str
deriving DecidableEq

/-- `extract_tv_info(title)` (source lines 260-294): episodic pattern,
then the alternate `SxxEyy` pattern, else not a TV show. -/
def extract_tv_info (title : Str) : TvInfo :=
  match tvSearch title with
  | some (g1, y, se, ep) =>
    { is_tv_show := true, show_name := pstrip g1, year := y,
      season := 'S' :: pad2 (digitsToNat se), episode := lchars "EP" ++ ep }
  | none =>
    match altSearch title with
    | some (g1, se, ep) =>
      { is_tv_show := true, show_name := pstrip g1,
        season := 'S' :: pad2 (digitsToNat se),
        episode := 'E' :: pad2 (digitsToNat ep),
        year := match dateSearch title with
          | some y => y
          | none => [] }
    | none =>
      { is_tv_show := false, show_name := [], season := [], episode := [], year := [] }

/-- Language table of `extract_languages` (source lines 243-251). -/
def lang_patterns : List (Str × List Str) :=
  [(lchars "TAM", [lchars "Tamil", lchars "TAM"]),
   (lchars "TEL", [lchars "Telugu", lchars "TEL"]),
   (lchars "HIN", [lchars "Hindi", lchars "HIN"]),
   (lchars "KAN", [lchars "Kannada", lchars "KAN"]),
   (lchars "MAL", [lchars "Malayalam", lchars "MAL"]),
   (lchars "ENG", [lchars "English", lchars "ENG"]),
   (lchars "JAP", [lchars "Japanese", lchars "JAP"])]

/-- `extract_languages(title)` (source lines 240-258): for each
language, append its code once per table pattern occurring in the title. -/
def extract_languages (title : Str) : List Str :=
  (lang_patterns.map fun cp =>
    (cp.2.filter fun p => hasSub title p).map fun _ => cp.1).flatten

/-- `extract_quality(title)` (source lines 296-310). -/
def extract_quality (title : Str) : List Str :=
  let qualities : List Str := []
  let qualities :=
    if hasSub title (lchars "1080p") then qualities ++ [lchars "1080p"] else qualities
  let qualities :=
    if hasSub title (lchars "720p") then qualities ++ [lchars "720p"] else qualities
  let qualities :=
    if hasSub title (lchars "480p") then qualities ++ [lchars "480p"] else qualities
  let qualities :=
    if hasSub title (lchars "2160p") || hasSub title (lchars "4K") ||
        hasSub title (lchars "UHD") then qualities ++ [lchars "4K"]
    else qualities
  let qualities :=
    if hasSub title (lchars "HDR") then qualities ++ [lchars "HDR"] else qualities
  qualities

/-- `extract_date(title)` (source lines 500-508): year from the title,
else the current wall-clock year (`datetime.now().strftime("%Y")`,
passed in as `nowYear`). -/
def extract_date (title : Str) (nowYear : Str) : Str :=
  match dateSearch title with
  | some y => y
  | none => nowYear

/-- `extract_category(soup, dom)` (source lines 312-323): text of the
first breadcrumb link whose href contains "forum". -/
def extract_category (soup : PageDoc) (_dom : Str) : Str :=
  match soup.breadcrumbs.find? (fun crumb => hasSub crumb.1 (lchars "forum")) with
  | some crumb => pstrip crumb.2
  | none => lchars "Uncategorized"

/-! ## Image selection (`find_better_image`) -/

/-- Placeholder used when no suitable image exists (source line 238). -/
def placeholderImage : Str :=
  lchars "https://via.placeholder.com/300x450?text=No+Image"

/-- First loop of `find_better_image` (source lines 210-229):
poster-sized or keyword-named images. -/
def fbiLoop1 : List Img → Option Str
  | [] => none
  | img :: rest =>
    let src := img.src.getD []
    let width := img.width.getD (lchars "0")
    let height := img.height.getD (lchars "0")
    if !src.isEmpty ∧ ¬ pyendswith src (lchars ".gif") ∧
        ¬ hasSub (pylower src) (lchars "avatar") ∧
        ¬ hasSub (pylower src) (lchars "icon") ∧
        ¬ hasSub (pylower src) (lchars "logo") then
      if pyIsdigit width ∧ pyIsdigit height ∧
          200 ≤ digitsToNat width ∧ 200 ≤ digitsToNat height then some src
      else if hasSub (pylower src) (lchars "poster") ∨
          hasSub (pylower src) (lchars "cover") ∨
          hasSub (pylower src) (lchars "movie") then some src
      else fbiLoop1 rest
    else fbiLoop1 rest

/-- Second loop of `find_better_image` (source lines 232-235): any
larger image. -/
def fbiLoop2 : List Img → Option Str
  | [] => none
  | img :: rest =>
    let src := img.src.getD []
    if !src.isEmpty ∧ ¬ pyendswith src (lchars ".gif") ∧
        ¬ hasSub (pylower src) (lchars "avatar") then some src
    else fbiLoop2 rest

/-- `find_better_image(soup, title, dom)` (source lines 207-238). -/
def find_better_image (soup : PageDoc) (_title dom : Str) : Str :=
  match fbiLoop1 soup.imgs with
  | some src => urljoin dom src
  | none =>
    match fbiLoop2 soup.imgs with
    | some src => urljoin dom src
    | none => placeholderImage

/-! ## Catalog entries (`create_content_entry`, `process_topic_page`) -/

/-- A catalog entry (the dict built at source lines 442-457). -/
structure Entry where
  title : Str
  clean_title : Str
  magnet : Str
  link : Str
  image : Str
  languages : List Str
  qualities : List Str
  category : Str
  release_date : Str
  added : Str
  is_tv_show : Bool
  show_name : Str
  season : Str
  episode : Str
deriving DecidableEq

/-- `create_content_entry(soup, title, magnet, link, dom, results)`
(source lines 419-458).  `now` models `datetime.now().strftime(...)`
and `nowYear` the wall-clock year used by `extract_date`. -/
def create_content_entry (soup : PageDoc) (title magnet link dom : Str)
    (results : List Entry) (now nowYear : Str) : List Entry :=
  let clean_title := extract_proper_title title (some soup) link
  let img_src := find_better_image soup clean_title dom
  let tv_info := extract_tv_info title
  let languages := extract_languages title
  let qualities := extract_quality title
  let release_date := if !tv_info.year.isEmpty then tv_info.year
    else extract_date title nowYear
  let category := extract_category soup dom
  results ++
    [{ title := title, clean_title := clean_title, magnet := magnet,
       link := link, image := img_src, languages := languages,
       qualities := qualities, category := category,
       release_date := release_date, added := now,
       is_tv_show := tv_info.is_tv_show, show_name := tv_info.show_name,
       season := tv_info.season, episode := tv_info.episode }]

/-- `process_topic_page(soup, title, link, dom, results)` (source lines
386-417): collect magnet anchors; with several magnets, pair the i-th
magnet with the i-th `h3`/`h4`/`strong` heading when there are enough
headings and the heading text is long enough. -/
def process_topic_page (soup : PageDoc) (title link dom : Str)
    (results : List Entry) (now nowYear : Str) : List Entry :=
  let magnets := (soup.anchors.filter fun a =>
    (lchars "magnet:?").isPrefixOf a.1).map (·.1)
  if magnets.length > 1 then
    let quality_sections := soup.headings
    if quality_sections.length ≥ magnets.length then
      magnets.enum.foldl
        (fun res im =>
          match quality_sections.get? im.1 with
          | some sec =>
            let section_title := pstrip sec
            if !section_title.isEmpty ∧ section_title.length > 5 then
              create_content_entry soup section_title im.2 link dom res now nowYear
            else res
          | none => create_content_entry soup title im.2 link dom res now nowYear)
        results
    else
      magnets.foldl
        (fun res magnet => create_content_entry soup title magnet link dom res now nowYear)
        results
  else
    match magnets with
    | [m] => create_content_entry soup title m link dom results now nowYear
    | _ => results

/-! ## Deduplication (`remove_duplicates`)

A Python `dict` keyed by magnet link is modelled as an association
list: assigning to a fresh key appends at the end, assigning to an
existing key replaces the value in place. -/

/-- Dictionary lookup. -/
def lookupA : List (Str × Entry) → Str → Option Entry
  | [], _ => none
  | (k, v) :: rest, key => if k = key then some v else lookupA rest key

/-- Dictionary assignment to an existing key (keeps its position). -/
def replaceA : List (Str × Entry) → Str → Entry → List (Str × Entry)
  | [], _, _ => []
  | (k, v) :: rest, key, item =>
    if k = key then (k, item) :: rest else (k, v) :: replaceA rest key item

/-- One iteration of the dedup loop (source lines 912-922). -/
def dedupeStep (m : List (Str × Entry)) (item : Entry) : List (Str × Entry) :=
  match lookupA m item.magnet with
  | none => m ++ [(item.magnet, item)]
  | some existing =>
    if existing.clean_title.length < item.clean_title.length then
      replaceA m item.magnet item
    else m

/-- Append a magnet under a title key in the similar-titles map. -/
def addSimilar : List (Str × List Str) → Str → Str → List (Str × List Str)
  | [], k, mg => [(k, [mg])]
  | (k', v) :: rest, k, mg =>
    if k' = k then (k', v ++ [mg]) :: rest else (k', v) :: addSimilar rest k mg

/-- The similar-titles scan (source lines 925-933); its result is
computed and then unused, as in the source. -/
def similar_titles_map (m : List (Str × Entry)) : List (Str × List Str) :=
  m.foldl
    (fun st kv =>
      let clean_title := pylower kv.2.clean_title
      if clean_title.length > 5 then addSimilar st (clean_title.take 10) kv.1
      else st)
    []

/-- `remove_duplicates(items)` (source lines 904-936). -/
def remove_duplicates (items : List Entry) : List Entry :=
  let unique_items := items.foldl dedupeStep []
  let _similar := similar_titles_map unique_items
  unique_items.map (·.2)

/-! ## Mirror resolution (`check_domain`, `get_domain`)

The transport (`scraper.get`) is modelled as a function from URL to an
optional (status code, body text); `none` models a raised request
exception. -/

/-- `check_domain(url)` (source lines 40-58): success status and a
site-identity marker in the body; any exception yields `False`. -/
def check_domain (fetch : Str → Option (Nat × Str)) (url : Str) : Bool :=
  match fetch url with
  | none => false
  | some (status, body) =>
    if status ≠ 200 then false
    else hasSub body (lchars "1TamilMV") || hasSub body (lchars "Tamil Movie")

/-- The loop of `get_domain()` (source lines 32-38) over an arbitrary
candidate list: first accepted candidate wins, else the
`RuntimeError("no mirror alive")`. -/
def get_domain_from (fetch : Str → Option (Nat × Str)) : List Str → Except Str Str
  | [] => Except.error (lchars "no mirror alive")
  | d :: rest =>
    if check_domain fetch d then Except.ok d else get_domain_from fetch rest

/-- The candidates on which the loop invokes `check_domain`, in order. -/
def probed_mirrors (fetch : Str → Option (Nat × Str)) : List Str → List Str
  | [] => []
  | d :: rest =>
    d :: (if check_domain fetch d then [] else probed_mirrors fetch rest)

/-- The configured mirror list (source lines 14-20). -/
def MIRRORS : List Str :=
  [lchars "https://www.1tamilmv.fi",
   lchars "https://1tamilmv.fi",
   lchars "https://www.1tamilmv.moi",
   lchars "https://www.1tamilmv.bike",
   lchars "https://www.1tamilmv.app",
   lchars "https://www.1tamilmv.tel",
   lchars "https://www.1tamilmv.legal"]

/-- `get_domain()` (source lines 32-38). -/
def get_domain (fetch : Str → Option (Nat × Str)) : Except Str Str :=
  get_domain_from fetch MIRRORS

/-! ## Concrete fixtures for witnesses and counterexamples -/

/-- A topic page with no queried content at all. -/
def emptyDoc : PageDoc :=
  { anchors := [], headings := [], pagetitle := none, h12break := [],
    titleTag := none, h1h2 := none, imgs := [], breadcrumbs := [] }

/-- A topic page with two magnet links and two section headings, the
first heading too short to be used as a title fragment. -/
def docTwoMagnets : PageDoc :=
  { emptyDoc with
    anchors := [(lchars "magnet:?xt=urn:btih:aaa", lchars "link a"),
                (lchars "magnet:?xt=urn:btih:bbb", lchars "link b")],
    headings := [lchars "hi", lchars "Quality Section 1080p"] }

/-- A minimal catalog entry with the given clean title and magnet. -/
def sampleEntry (ct mg : String) : Entry :=
  { title := lchars ct, clean_title := lchars ct, magnet := lchars mg,
    link := [], image := lchars "img", languages := [], qualities := [],
    category := lchars "Uncategorized", release_date := [], added := [],
    is_tv_show := false, show_name := [], season := [], episode := [] }

/-- A transport in which only the second mirror serves a valid homepage. -/
def fetchMirrors (u : Str) : Option (Nat × Str) :=
  if u = lchars "https://a.example" then some (503, lchars "1TamilMV")
  else if u = lchars "https://b.example" then
    some (200, lchars "<html>1TamilMV home</html>")
  else if u = lchars "https://c.example" then some (200, lchars "placeholder")
  else none

/-- Invariant of the dedup fold: the association list built from the
processed prefix has duplicate-free keys, each value carries its key as
magnet, every processed magnet has a key, and each value is the first
longest entry among the processed entries sharing its magnet. -/
def DedupInv (processed : List Entry) (m : List (Str × Entry)) : Prop :=
  (m.map Prod.fst).Nodup ∧
  (∀ p ∈ m, p.2.magnet = p.1) ∧
  (∀ e ∈ processed, ∃ p ∈ m, p.1 = e.magnet) ∧
  (∀ p ∈ m, ∃ l₁ l₂,
    processed.filter (fun x => x.magnet == p.1) = l₁ ++ p.2 :: l₂ ∧
    (∀ x ∈ l₁, x.clean_title.length < p.2.clean_title.length) ∧
    (∀ x ∈ l₂, x.clean_title.length ≤ p.2.clean_title.length))

/-! ## Basic lemmas -/

theorem hasSub_iff {hay pat : Str} : hasSub hay pat = true ↔ pat <:+: hay := by
  induction hay with
  | nil => simp [hasSub, List.isEmpty_iff]
  | cons c rest ih =>
    simp only [hasSub, Bool.or_eq_true, List.isPrefixOf_iff_prefix, ih,
      List.infix_cons_iff]

theorem hasSub_suffix_mono {s u pat : Str} (hu : u <:+ s)
    (h : hasSub s pat = false) : hasSub u pat = false := by
  cases hq : hasSub u pat with
  | false => rfl
  | true =>
    exact absurd (hasSub_iff.mpr ((hasSub_iff.mp hq).trans hu.isInfix))
      (by simp [h])

theorem hasSub_trans {s p u : Str} (h₁ : hasSub s p = true)
    (h₂ : hasSub p u = true) : hasSub s u = true :=
  hasSub_iff.mpr ((hasSub_iff.mp h₂).trans (hasSub_iff.mp h₁))

theorem subGo_eq_self (tm : Str → Option Str) :
    ∀ (fuel : Nat) (t : Str), (∀ u, u <:+ t → tm u = none) →
      subGo tm fuel t = t := by
  intro fuel
  induction fuel with
  | zero => intro t _; rfl
  | succ n ih =>
    intro t h
    cases t with
    | nil => rfl
    | cons c cs =>
      have hhead : tm (c :: cs) = none := h _ (List.suffix_refl _)
      have htail : subGo tm n cs = cs :=
        ih cs fun u hu => h u (hu.trans (List.suffix_cons c cs))
      simp [subGo, hhead, htail]

theorem reSub_eq_self {tm : Str → Option Str} {t : Str}
    (h : ∀ u, u <:+ t → tm u = none) : reSub tm t = t :=
  subGo_eq_self tm t.length t h

/-! ## C6 — quality tags -/

/-- C6: for every raw title, `extract_quality` returns a duplicate-free
list that is a subsequence of the fixed priority order
`[1080p, 720p, 480p, 4K, HDR]`, a tag being present iff one of its
trigger substrings occurs in the title; `2160p`, `4K` and `UHD` all
collapse into the single `4K` tag. -/
theorem claim6_theorem (t : Str) :
    (extract_quality t).Nodup ∧
    List.Sublist (extract_quality t)
      [lchars "1080p", lchars "720p", lchars "480p", lchars "4K", lchars "HDR"] ∧
    (lchars "1080p" ∈ extract_quality t ↔ hasSub t (lchars "1080p") = true) ∧
    (lchars "720p" ∈ extract_quality t ↔ hasSub t (lchars "720p") = true) ∧
    (lchars "480p" ∈ extract_quality t ↔ hasSub t (lchars "480p") = true) ∧
    (lchars "4K" ∈ extract_quality t ↔
      (hasSub t (lchars "2160p") = true ∨ hasSub t (lchars "4K") = true ∨
        hasSub t (lchars "UHD") = true)) ∧
    (lchars "HDR" ∈ extract_quality t ↔ hasSub t (lchars "HDR") = true) := by
  unfold extract_quality
  cases h1 : hasSub t (lchars "1080p") <;>
    cases h2 : hasSub t (lchars "720p") <;>
      cases h3 : hasSub t (lchars "480p") <;>
        cases h4a : hasSub t (lchars "2160p") <;>
          cases h4b : hasSub t (lchars "4K") <;>
            cases h4c : hasSub t (lchars "UHD") <;>
              cases h5 : hasSub t (lchars "HDR") <;>
                simp_all <;> decide

/-- C6 witness: on a title containing both `2160p` and `UHD` the result
is the single `4K` tag. -/
theorem claim6_witness :
    lchars "4K" ∈ extract_quality (lchars "Leo 2160p UHD") ∧
    (extract_quality (lchars "Leo 2160p UHD")).Nodup :=
  ⟨((claim6_theorem (lchars "Leo 2160p UHD")).2.2.2.2.2.1).mpr (by decide),
   (claim6_theorem (lchars "Leo 2160p UHD")).1⟩

/-! ## C5 — language tags -/

theorem mem_map_const {α : Type} {c code : Str} {l : List α} :
    code ∈ l.map (fun _ => c) ↔ (l ≠ [] ∧ c = code) := by
  cases l <;> simp [eq_comm]

theorem count_map_const {α : Type} (c code : Str) (l : List α) :
    List.count code (l.map fun _ => c) = if c = code then l.length else 0 := by
  induction l with
  | nil => simp
  | cons a l ih =>
    simp only [List.map_cons, List.count_cons, ih]
    by_cases h : c = code <;> simp [h]

/-- C5 counterexample: a title containing "Tamil", "TAM" and "Hindi"
yields the TAM tag twice (once per matching table pattern), so the
extraction is not set-valued with at-most-one occurrence per code. -/
theorem claim5_counterexample :
    extract_languages (lchars "Tamil TAM Hindi") =
      [lchars "TAM", lchars "TAM", lchars "HIN"] ∧
    List.count (lchars "TAM") (extract_languages (lchars "Tamil TAM Hindi")) = 2 := by
  constructor <;> decide

/-- C5 (amended): a language code occurs in the result once per table
pattern (English name, 3-letter code) contained in the title — so it is
present iff the title contains the language's English name or 3-letter
code as a literal substring, but a title containing both spellings
lists that code twice. -/
theorem claim5_theorem (t : Str) (code : Str) (pats : List Str)
    (hmem : (code, pats) ∈ lang_patterns) :
    (code ∈ extract_languages t ↔ ∃ p ∈ pats, hasSub t p = true) ∧
    List.count code (extract_languages t) =
      (pats.filter fun p => hasSub t p).length := by
  have hne : ∀ ps : List Str, ((ps.filter fun q => hasSub t q) ≠ [] ↔
      ∃ q ∈ ps, hasSub t q = true) := by
    intro ps
    simp [List.filter_eq_nil_iff]
  simp only [lang_patterns, List.mem_cons, List.not_mem_nil, or_false,
    Prod.mk.injEq] at hmem
  obtain ⟨hc, hp⟩ | ⟨hc, hp⟩ | ⟨hc, hp⟩ | ⟨hc, hp⟩ | ⟨hc, hp⟩ |
    ⟨hc, hp⟩ | ⟨hc, hp⟩ := hmem <;>
    subst hc <;> subst hp <;>
    refine ⟨?_, ?_⟩ <;>
    simp only [extract_languages, lang_patterns, List.map_cons, List.map_nil,
      List.flatten_cons, List.flatten_nil, List.append_nil, List.mem_append,
      List.count_append, mem_map_const, count_map_const] <;>
    simp +decide [hne]

/-- C5 witness: the amended characterization instantiated on the
"Tamil TAM Hindi" title for the TAM row of the table. -/
theorem claim5_witness :
    (lchars "TAM" ∈ extract_languages (lchars "Tamil TAM Hindi") ↔
      ∃ p ∈ [lchars "Tamil", lchars "TAM"],
        hasSub (lchars "Tamil TAM Hindi") p = true) ∧
    List.count (lchars "TAM") (extract_languages (lchars "Tamil TAM Hindi")) =
      (([lchars "Tamil", lchars "TAM"]).filter fun p =>
        hasSub (lchars "Tamil TAM Hindi") p).length :=
  claim5_theorem (lchars "Tamil TAM Hindi") (lchars "TAM")
    [lchars "Tamil", lchars "TAM"] (by decide)

/-! ## C3 — magnet-to-fragment association -/

/-- C3 divergence: on a topic with two magnets and two headings whose
first heading is too short, the first magnet yields NO entry — it is
dropped rather than falling back to the topic title (the fallback
branch is attached to the wrong condition and is unreachable when
headings ≥ magnets).  Only the second magnet survives. -/
theorem claim3_theorem :
    (process_topic_page docTwoMagnets (lchars "Topic Title")
      (lchars "https://x.example/t") (lchars "https://x.example") []
      (lchars "2026-01-01 00:00:00") (lchars "2026")).map (fun e => e.magnet) =
      [lchars "magnet:?xt=urn:btih:bbb"] := by
  decide

/-! ## C4 — release year -/

/-- C4 divergence: on a title with no parenthesized four-digit year,
`extract_date` returns the wall-clock year (whatever it is), and the
created entry's release date is that fabricated year rather than being
absent. -/
theorem claim4_theorem :
    dateSearch (lchars "Some Movie 1080p") = none ∧
    extract_date (lchars "Some Movie 1080p") (lchars "2026") = lchars "2026" ∧
    extract_date (lchars "Some Movie 1080p") (lchars "1999") = lchars "1999" ∧
    (create_content_entry emptyDoc (lchars "Some Movie 1080p")
      (lchars "magnet:?xt=2") (lchars "https://x.example/t")
      (lchars "https://x.example") [] (lchars "2026-01-01 00:00:00")
      (lchars "2026")).map (fun e => e.release_date) = [lchars "2026"] := by
  refine ⟨rfl, rfl, rfl, ?_⟩
  decide

/-! ## C7 — endpoint resolution -/

/-- C7: the mirror loop probes candidates strictly in the given order;
it returns the first candidate whose fetch has status 200 and whose
body contains a site-identity marker, having probed exactly the
candidates before it (each once) and it; it fails with the
"no mirror alive" error iff every candidate fails the check. -/
theorem claim7_theorem (fetch : Str → Option (Nat × Str)) (mirrors : List Str) :
    ((∃ msg, get_domain_from fetch mirrors = Except.error msg) ↔
      ∀ d ∈ mirrors, check_domain fetch d = false) ∧
    (∀ d, get_domain_from fetch mirrors = Except.ok d →
      check_domain fetch d = true ∧
      ∃ l₁ l₂, mirrors = l₁ ++ d :: l₂ ∧
        (∀ x ∈ l₁, check_domain fetch x = false) ∧
        probed_mirrors fetch mirrors = l₁ ++ [d]) ∧
    ((∀ d ∈ mirrors, check_domain fetch d = false) →
      probed_mirrors fetch mirrors = mirrors) := by
  induction mirrors with
  | nil =>
    refine ⟨by simp [get_domain_from], ?_, by simp [probed_mirrors]⟩
    intro d h
    simp [get_domain_from] at h
  | cons m rest ih =>
    cases hcd : check_domain fetch m with
    | true =>
      refine ⟨?_, ?_, ?_⟩
      · simp [get_domain_from, hcd]
      · intro d h
        simp only [get_domain_from, hcd, if_true] at h
        cases h
        exact ⟨hcd, [], rest, rfl, by simp, by simp [probed_mirrors, hcd]⟩
      · intro hall
        exact absurd hcd (by simp [hall m (List.mem_cons_self m rest)])
    | false =>
      refine ⟨?_, ?_, ?_⟩
      · simpa [get_domain_from, hcd] using ih.1
      · intro d h
        simp only [get_domain_from, hcd, if_false] at h
        obtain ⟨hc, l₁, l₂, hsplit, hfail, hprobe⟩ := ih.2.1 d h
        refine ⟨hc, m :: l₁, l₂, by simp [hsplit], ?_, ?_⟩
        · intro x hx
          rcases List.mem_cons.mp hx with hx | hx
          · exact hx ▸ hcd
          · exact hfail x hx
        · simp [probed_mirrors, hcd, hprobe]
      · intro hall
        have : probed_mirrors fetch rest = rest :=
          ih.2.2 fun d hd => hall d (List.mem_cons_of_mem m hd)
        simp [probed_mirrors, hcd, this]

/-- C7 witness: among three concrete candidates where the first fails
with a non-success status and the second is valid, the second is
resolved after probing exactly the first and the second, in order. -/
theorem claim7_witness :
    check_domain fetchMirrors (lchars "https://b.example") = true ∧
    ∃ l₁ l₂,
      [lchars "https://a.example", lchars "https://b.example",
        lchars "https://c.example"] =
        l₁ ++ (lchars "https://b.example") :: l₂ ∧
      (∀ x ∈ l₁, check_domain fetchMirrors x = false) ∧
      probed_mirrors fetchMirrors
        [lchars "https://a.example", lchars "https://b.example",
          lchars "https://c.example"] = l₁ ++ [lchars "https://b.example"] :=
  (claim7_theorem fetchMirrors
    [lchars "https://a.example", lchars "https://b.example",
      lchars "https://c.example"]).2.1 (lchars "https://b.example") rfl

/-! ## Search lemmas

Both episodic and movie-year patterns require a parenthesized
four-digit year, so a title with no `(dddd)` group matches neither. -/

theorem parseTv_yearParen {cs : Str} {v : Str × Str × Str}
    (h : parseTvAfterParen cs = some v) : ∃ yq, yearParen cs = some yq := by
  unfold parseTvAfterParen at h
  cases hy : yearParen cs with
  | none => rw [hy] at h; exact absurd h (by simp)
  | some yq => exact ⟨yq, rfl⟩

theorem dateSearchAux_append : ∀ (pre rest y q : Str),
    yearParen rest = some (y, q) →
    ∃ z, dateSearchAux (pre ++ '(' :: rest) = some z := by
  intro pre
  induction pre with
  | nil =>
    intro rest y q h
    exact ⟨y, by simp [dateSearchAux, h]⟩
  | cons c pre ih =>
    intro rest y q h
    obtain ⟨z, hz⟩ := ih rest y q h
    by_cases hc : c = '('
    · subst hc
      cases hyp : yearParen (pre ++ '(' :: rest) with
      | some v => exact ⟨v.1, by simp [dateSearchAux, hyp]⟩
      | none => exact ⟨z, by simp [dateSearchAux, hyp, hz]⟩
    · exact ⟨z, by simp [dateSearchAux, hc, hz]⟩

theorem tvSearchAux_split : ∀ (rem acc : Str) (r : Str × Str × Str × Str),
    tvSearchAux acc rem = some r →
    ∃ pre rest yq, rem = pre ++ '(' :: rest ∧ yearParen rest = some yq := by
  intro rem
  induction rem with
  | nil => intro acc r h; exact absurd h (by simp [tvSearchAux])
  | cons c rest' ih =>
    intro acc r h
    by_cases hc : c = '('
    · subst hc
      simp only [tvSearchAux, if_true] at h
      cases hacc : acc.isEmpty with
      | true =>
        rw [hacc] at h
        rw [if_pos rfl] at h
        obtain ⟨pre, rest, yq, hsplit, hyp⟩ := ih [] r h
        exact ⟨'(' :: pre, rest, yq, by simp [hsplit], hyp⟩
      | false =>
        rw [hacc] at h
        rw [if_neg Bool.false_ne_true] at h
        cases hp : parseTvAfterParen rest' with
        | some v =>
          obtain ⟨yq, hyq⟩ := parseTv_yearParen hp
          exact ⟨[], rest', yq, rfl, hyq⟩
        | none =>
          rw [hp] at h
          obtain ⟨pre, rest, yq, hsplit, hyp⟩ := ih [] r h
          exact ⟨'(' :: pre, rest, yq, by simp [hsplit], hyp⟩
    · simp only [tvSearchAux, hc, if_false] at h
      obtain ⟨pre, rest, yq, hsplit, hyp⟩ := ih (c :: acc) r h
      exact ⟨c :: pre, rest, yq, by simp [hsplit], hyp⟩

theorem movieSearchAux_split : ∀ (rem acc : Str) (r : Str × Str),
    movieSearchAux acc rem = some r →
    ∃ pre rest yq, rem = pre ++ '(' :: rest ∧ yearParen rest = some yq := by
  intro rem
  induction rem with
  | nil => intro acc r h; exact absurd h (by simp [movieSearchAux])
  | cons c rest' ih =>
    intro acc r h
    by_cases hc : c = '('
    · subst hc
      simp only [movieSearchAux, if_true] at h
      cases hacc : acc.isEmpty with
      | true =>
        rw [hacc] at h
        rw [if_pos rfl] at h
        obtain ⟨pre, rest, yq, hsplit, hyp⟩ := ih [] r h
        exact ⟨'(' :: pre, rest, yq, by simp [hsplit], hyp⟩
      | false =>
        rw [hacc] at h
        rw [if_neg Bool.false_ne_true] at h
        cases hp : yearParen rest' with
        | some v => exact ⟨[], rest', v, rfl, hp⟩
        | none =>
          rw [hp] at h
          obtain ⟨pre, rest, yq, hsplit, hyp⟩ := ih [] r h
          exact ⟨'(' :: pre, rest, yq, by simp [hsplit], hyp⟩
    · simp only [movieSearchAux, hc, if_false] at h
      obtain ⟨pre, rest, yq, hsplit, hyp⟩ := ih (c :: acc) r h
      exact ⟨c :: pre, rest, yq, by simp [hsplit], hyp⟩

theorem tvSearch_none_of_dateSearch {s : Str} (h : dateSearch s = none) :
    tvSearch s = none := by
  cases ht : tvSearch s with
  | none => rfl
  | some r =>
    obtain ⟨pre, rest, ⟨y, q⟩, hsplit, hyp⟩ := tvSearchAux_split s [] r ht
    obtain ⟨z, hz⟩ := dateSearchAux_append pre rest y q hyp
    rw [dateSearch, hsplit, hz] at h
    cases h

theorem movieSearch_none_of_dateSearch {s : Str} (h : dateSearch s = none) :
    movieSearch s = none := by
  cases ht : movieSearch s with
  | none => rfl
  | some r =>
    obtain ⟨pre, rest, ⟨y, q⟩, hsplit, hyp⟩ := movieSearchAux_split s [] r ht
    obtain ⟨z, hz⟩ := dateSearchAux_append pre rest y q hyp
    rw [dateSearch, hsplit, hz] at h
    cases h

/-! ## UI-marker lemmas -/

theorem prefixes_contain_ui :
    ∀ p ∈ common_prefixes, ∃ u ∈ ui_elements, hasSub (lchars p) (lchars u) = true := by
  decide

theorem noUI_any_prefix_sub {s : Str}
    (h : ui_elements.any (fun ui => hasSub s (lchars ui)) = false) :
    common_prefixes.any (fun p => hasSub s (lchars p)) = false := by
  rw [List.any_eq_false] at h ⊢
  intro p hp hq
  obtain ⟨u, hu, hsub⟩ := prefixes_contain_ui p hp
  exact absurd (hasSub_trans hq hsub) (h _ hu)

theorem noUI_stripPrefixes {s : Str}
    (h : ui_elements.any (fun ui => hasSub s (lchars ui)) = false) :
    stripPrefixes s = s := by
  unfold stripPrefixes
  have hfind : common_prefixes.find? (fun p => (lchars p).isPrefixOf s) = none := by
    rw [List.find?_eq_none]
    intro p hp hq
    have hps : hasSub s (lchars p) = true :=
      hasSub_iff.mpr (List.isPrefixOf_iff_prefix.mp hq).isInfix
    exact absurd hps (List.any_eq_false.mp (noUI_any_prefix_sub h) p hp)
  rw [hfind]

/-! ## C1 — episodic pattern -/

/-- C1 (amended): for every raw title containing no UI-element marker
on which the episodic pattern matches, the clean title is
`"<show> (S<season>E<episode>)"` with the season and episode digits
exactly as captured (the season is NOT zero-padded in the clean title),
independent of any page document or URL — so the movie-year stage never
contributes; the season field is `"S"` plus the captured season
zero-padded to at least two digits, and the episode field is `"EP"`
plus the captured episode or range. -/
theorem claim1_theorem (s : Str) (soup : Option PageDoc) (url : Str)
    (hui : ui_elements.any (fun ui => hasSub s (lchars ui)) = false)
    (g1 y se ep : Str) (h : tvSearch s = some (g1, y, se, ep)) :
    extract_proper_title s soup url =
      pstrip g1 ++ lchars " (S" ++ se ++ 'E' :: ep ++ [')'] ∧
    extract_tv_info s =
      { is_tv_show := true, show_name := pstrip g1, year := y,
        season := 'S' :: pad2 (digitsToNat se),
        episode := lchars "EP" ++ ep } := by
  constructor
  · unfold extract_proper_title
    simp [hui, noUI_stripPrefixes hui, h]
  · unfold extract_tv_info
    rw [h]

/-- C1 counterexample: on a raw title with a single-digit season the
clean title keeps the captured digits — `"Dexter (S1E5)"`, not the
zero-padded `"Dexter (S01E5)"` the claim requires. -/
theorem claim1_counterexample :
    extract_proper_title (lchars "Dexter (2013) S1 EP(5)") none [] =
      lchars "Dexter (S1E5)" ∧
    extract_proper_title (lchars "Dexter (2013) S1 EP(5)") none [] ≠
      lchars "Dexter (S01E5)" := by
  constructor <;> decide

/-- C1 witness: the amended statement on the spec's own example
`"Office (2025) S01 EP (37-40)"`. -/
theorem claim1_witness :
    extract_proper_title (lchars "Office (2025) S01 EP (37-40)") none [] =
      pstrip (lchars "Office ") ++ lchars " (S" ++ lchars "01" ++
        'E' :: lchars "37-40" ++ [')'] ∧
    extract_tv_info (lchars "Office (2025) S01 EP (37-40)") =
      { is_tv_show := true, show_name := pstrip (lchars "Office "),
        year := lchars "2025",
        season := 'S' :: pad2 (digitsToNat (lchars "01")),
        episode := lchars "EP" ++ lchars "37-40" } :=
  claim1_theorem (lchars "Office (2025) S01 EP (37-40)") none []
    (by decide) (lchars "Office ") (lchars "2025") (lchars "01")
    (lchars "37-40") (by decide)

/-! ## Technical-token pattern lemmas

Each stripping pattern can only match where its characteristic literal
occurs, so on a title free of that literal the substitution is the
identity. -/

theorem hasSub_of_prefix_suffix {t u pat : Str} (h1 : pat.isPrefixOf u = true)
    (h2 : u <:+ t) : hasSub t pat = true :=
  hasSub_iff.mpr ((List.isPrefixOf_iff_prefix.mp h1).isInfix.trans h2.isInfix)

theorem tryMatchResBracket_sub {t r : Str} (h : tryMatchResBracket t = some r) :
    hasSub t (lchars "[") = true := by
  unfold tryMatchResBracket at h
  split at h
  · exact hasSub_of_prefix_suffix (by simp [lchars, List.isPrefixOf]) (List.suffix_refl _)
  · cases h

theorem tryMatchParenBluRay_sub {t r : Str} (h : tryMatchParenBluRay t = some r) :
    hasSub t (lchars "BluRay") = true := by
  unfold tryMatchParenBluRay at h
  split at h
  case _ r' =>
    split_ifs at h with hpre
    exact hasSub_of_prefix_suffix hpre (List.suffix_cons '(' r')
  · cases h

theorem tryMatchParenWebDL_sub {t r : Str} (h : tryMatchParenWebDL t = some r) :
    hasSub t (lchars "WEB-DL") = true := by
  unfold tryMatchParenWebDL at h
  split at h
  case _ r' =>
    split_ifs at h with hpre
    exact hasSub_of_prefix_suffix hpre (List.suffix_cons '(' r')
  · cases h

theorem tryMatchDashBracketEnd_sub {t r : Str} (h : tryMatchDashBracketEnd t = some r) :
    hasSub t (lchars "[") = true := by
  unfold tryMatchDashBracketEnd at h
  split at h
  case _ r' =>
    exact hasSub_of_prefix_suffix (by simp [lchars, List.isPrefixOf])
      ((List.suffix_cons ' ' ('[' :: r')).trans (List.suffix_cons '-' _))
  · cases h

theorem hasSub_mono_suffix {u' u pat : Str} (hs : u' <:+ u)
    (h : hasSub u' pat = true) : hasSub u pat = true :=
  hasSub_iff.mpr ((hasSub_iff.mp h).trans hs.isInfix)

theorem sizeTailGB_sub {u r : Str} (h : sizeTailGB u = some r) :
    hasSub u (lchars "GB") = true := by
  unfold sizeTailGB at h
  split_ifs at h with hp
  exact hasSub_of_prefix_suffix hp (List.suffix_refl u)

theorem sizeDotSkip_suffix (r3 : Str) : sizeDotSkip r3 <:+ r3 := by
  unfold sizeDotSkip
  split
  case _ r3' =>
    dsimp only
    split_ifs with hds
    · exact List.suffix_refl _
    · exact (List.drop_suffix _ r3').trans (List.suffix_cons '.' r3')
  · exact List.suffix_refl _

theorem sizeTailDigits_sub {u r : Str} (h : sizeTailDigits u = some r) :
    hasSub u (lchars "GB") = true := by
  simp only [sizeTailDigits] at h
  split_ifs at h with hds
  exact hasSub_mono_suffix
    ((sizeDotSkip_suffix _).trans (List.drop_suffix _ u)) (sizeTailGB_sub h)

theorem tryMatchSizeGB_sub {t r : Str} (h : tryMatchSizeGB t = some r) :
    hasSub t (lchars "GB") = true := by
  simp only [tryMatchSizeGB] at h
  split_ifs at h with h1
  split at h
  case _ r' heq =>
    have hr' : r' <:+ t :=
      (List.suffix_cons '-' r').trans (heq ▸ List.drop_suffix _ t)
    split_ifs at h with h2
    exact hasSub_mono_suffix ((List.drop_suffix _ r').trans hr')
      (sizeTailDigits_sub h)
  · exact Option.noConfusion h

theorem tryMatchWordTail_sub {word t r : Str} (h : tryMatchWordTail word t = some r) :
    hasSub t word = true := by
  unfold tryMatchWordTail at h
  split_ifs at h with hp
  exact hasSub_of_prefix_suffix hp (List.suffix_refl t)

theorem tryMatchWsBracketEnd_sub {t r : Str} (h : tryMatchWsBracketEnd t = some r) :
    hasSub t (lchars "[") = true := by
  simp only [tryMatchWsBracketEnd] at h
  split_ifs at h with h1
  split at h
  case _ r' heq =>
    exact hasSub_of_prefix_suffix (by simp [lchars, List.isPrefixOf])
      (heq ▸ List.drop_suffix _ t)
  · exact Option.noConfusion h

/-! ## C8/C9 — stripping-stage identity and raw-title fallback -/

theorem stageFive_id {s : Str}
    (hbr : hasSub s (lchars "[") = false)
    (hblu : hasSub s (lchars "BluRay") = false)
    (hweb : hasSub s (lchars "WEB-DL") = false)
    (hgb : hasSub s (lchars "GB") = false)
    (havc : hasSub s (lchars "AVC") = false)
    (hhevc : hasSub s (lchars "HEVC") = false)
    (hstrip : pstrip s = s) : stageFiveTitle s = s := by
  have hid : ∀ (tm : Str → Option Str) (needle : Str),
      hasSub s needle = false →
      (∀ u r, tm u = some r → hasSub u needle = true) →
      reSub tm s = s := by
    intro tm needle hn htm
    refine reSub_eq_self fun u hu => ?_
    cases he : tm u with
    | none => rfl
    | some r =>
      have hcontra := htm u r he
      rw [hasSub_suffix_mono hu hn] at hcontra
      cases hcontra
  have h1 := hid tryMatchResBracket _ hbr fun u r h => tryMatchResBracket_sub h
  have h2 := hid tryMatchParenBluRay _ hblu fun u r h => tryMatchParenBluRay_sub h
  have h3 := hid tryMatchParenWebDL _ hweb fun u r h => tryMatchParenWebDL_sub h
  have h4 := hid tryMatchDashBracketEnd _ hbr fun u r h => tryMatchDashBracketEnd_sub h
  have h5 := hid tryMatchSizeGB _ hgb fun u r h => tryMatchSizeGB_sub h
  have h6 := hid (tryMatchWordTail (lchars "WEB-DL")) _ hweb fun u r h =>
    tryMatchWordTail_sub h
  have h7 := hid (tryMatchWordTail (lchars "BluRay")) _ hblu fun u r h =>
    tryMatchWordTail_sub h
  have h8 := hid tryMatchWsBracketEnd _ hbr fun u r h => tryMatchWsBracketEnd_sub h
  have h9 := hid (tryMatchWordTail (lchars "AVC")) _ havc fun u r h =>
    tryMatchWordTail_sub h
  have h10 := hid (tryMatchWordTail (lchars "HEVC")) _ hhevc fun u r h =>
    tryMatchWordTail_sub h
  simp only [stageFiveTitle, h1, h2, h3, h4, h5, h6, h7, h8, h9, h10, hstrip]

/-- C8 (amended): normalization is the identity on already-clean
titles that, in addition to containing no technical tokens (brackets,
BluRay/WEB-DL/AVC/HEVC markers, size annotations) and no brand/UI
markers, contain no parenthesized four-digit year and carry no
surrounding whitespace — a clean title containing a year group is
re-emitted through the movie-year stage and is not in general returned
verbatim. -/
theorem claim8_theorem (s : Str)
    (hui : ui_elements.any (fun ui => hasSub s (lchars ui)) = false)
    (hyear : dateSearch s = none)
    (hbr : hasSub s (lchars "[") = false)
    (hblu : hasSub s (lchars "BluRay") = false)
    (hweb : hasSub s (lchars "WEB-DL") = false)
    (hgb : hasSub s (lchars "GB") = false)
    (havc : hasSub s (lchars "AVC") = false)
    (hhevc : hasSub s (lchars "HEVC") = false)
    (hstrip : pstrip s = s) :
    extract_proper_title s none [] = s := by
  have htv : tvSearch s = none := tvSearch_none_of_dateSearch hyear
  have hmv : movieStageResult s = none := by
    unfold movieStageResult
    rw [movieSearch_none_of_dateSearch hyear]
  have hsf : stageFiveTitle s = s :=
    stageFive_id hbr hblu hweb hgb havc hhevc hstrip
  have hpfx : common_prefixes.any (fun p => hasSub s (lchars p)) = false :=
    noUI_any_prefix_sub hui
  have heqpfx : common_prefixes.any (fun p => s = lchars p) = false := by
    rw [List.any_eq_false]
    intro p hp hq
    have : hasSub s (lchars p) = true := by
      rw [of_decide_eq_true hq]
      exact hasSub_iff.mpr (List.infix_refl _)
    exact absurd this (by simp [List.any_eq_false.mp hpfx p hp])
  unfold extract_proper_title
  simp only [hui, Bool.false_eq_true, if_false, noUI_stripPrefixes hui, htv,
    hmv, hsf, soupTitleProbe]
  by_cases hc : s.isEmpty ∨ s.length < 5 ∨ common_prefixes.any (fun p => s = lchars p)
  · rw [if_pos hc]
    show (match urlTitleLower [] with
      | some r => r
      | none =>
        if common_prefixes.any (fun p => hasSub s (lchars p)) then
          lchars "Movie Title (See Details)"
        else s) = s
    simp [urlTitleLower, hpfx]
  · rw [if_neg hc]

/-- C8 witness: a clean title is returned unchanged. -/
theorem claim8_witness :
    extract_proper_title (lchars "Kadaisi Vivasayi") none [] =
      lchars "Kadaisi Vivasayi" :=
  claim8_theorem (lchars "Kadaisi Vivasayi") (by decide) (by decide) (by decide)
    (by decide) (by decide) (by decide) (by decide) (by decide) (by decide)

/-- C8 counterexample: a title with no technical tokens and no brand
markers that contains a parenthesized year followed by more text is
truncated by the movie-year stage, not returned unchanged. -/
theorem claim8_counterexample :
    extract_proper_title (lchars "Movie Name (2023) Directors Cut") none [] =
      lchars "Movie Name (2023)" ∧
    extract_proper_title (lchars "Movie Name (2023) Directors Cut") none [] ≠
      lchars "Movie Name (2023) Directors Cut" := by
  constructor <;> decide

/-- C9: title normalization is total (a total function of its inputs in
this embedding) and on total ambiguity — no UI marker, no year pattern,
page probes yield nothing, the stripped residue is too short, and the
URL yields nothing — it returns the raw title itself as the clean
title. -/
theorem claim9_theorem (s : Str) (soup : Option PageDoc) (url : Str)
    (hui : ui_elements.any (fun ui => hasSub s (lchars ui)) = false)
    (hyear : dateSearch s = none)
    (hsp : soupTitleProbe soup = none)
    (hshort : (stageFiveTitle s).length < 5)
    (hurl : urlTitleLower url = none) :
    extract_proper_title s soup url = s := by
  have htv : tvSearch s = none := tvSearch_none_of_dateSearch hyear
  have hmv : movieStageResult s = none := by
    unfold movieStageResult
    rw [movieSearch_none_of_dateSearch hyear]
  have hlong : ∀ p ∈ common_prefixes, 14 ≤ (lchars p).length := by decide
  have hpfx : common_prefixes.any (fun p => hasSub (stageFiveTitle s) (lchars p)) =
      false := by
    rw [List.any_eq_false]
    intro p hp hq
    have hle := (hasSub_iff.mp hq).length_le
    have := hlong p hp
    omega
  unfold extract_proper_title
  simp only [hui, Bool.false_eq_true, if_false, noUI_stripPrefixes hui, htv,
    hmv, hsp]
  rw [if_pos (Or.inr (Or.inl hshort)), hurl]
  simp [hpfx]

/-- C9 witness: a short unparseable title passes through unchanged. -/
theorem claim9_witness : extract_proper_title (lchars "abc") none [] = lchars "abc" :=
  claim9_theorem (lchars "abc") none [] (by decide) (by decide) rfl
    (by decide) rfl

/-! ## C10 — image fallback -/

theorem fbiLoop1_ne_nil : ∀ {imgs : List Img} {s : Str},
    fbiLoop1 imgs = some s → s ≠ [] := by
  intro imgs
  induction imgs with
  | nil => intro s h; simp [fbiLoop1] at h
  | cons img rest ih =>
    intro s h
    simp only [fbiLoop1] at h
    split_ifs at h with h1 h2 h3
    · cases h
      simpa [List.isEmpty_iff] using h1.1
    · cases h
      simpa [List.isEmpty_iff] using h1.1
    · exact ih h
    · exact ih h

theorem fbiLoop2_ne_nil : ∀ {imgs : List Img} {s : Str},
    fbiLoop2 imgs = some s → s ≠ [] := by
  intro imgs
  induction imgs with
  | nil => intro s h; simp [fbiLoop2] at h
  | cons img rest ih =>
    intro s h
    simp only [fbiLoop2] at h
    split_ifs at h with h1
    · cases h
      simpa [List.isEmpty_iff] using h1.1
    · exact ih h

theorem urljoin_ne_nil {base rel : Str} (h : rel ≠ []) : urljoin base rel ≠ [] := by
  unfold urljoin
  split_ifs with h1 h2 h3
  · exact absurd (List.isEmpty_iff.mp h1) h
  · exact h
  · simp [h]
  · simp [h]

theorem fbi_ne (soup : PageDoc) (t dom : Str) :
    find_better_image soup t dom ≠ [] := by
  unfold find_better_image
  cases h1 : fbiLoop1 soup.imgs with
  | some src => exact urljoin_ne_nil (fbiLoop1_ne_nil h1)
  | none =>
    cases h2 : fbiLoop2 soup.imgs with
    | some src => exact urljoin_ne_nil (fbiLoop2_ne_nil h2)
    | none => simp [placeholderImage, lchars]

/-- C10: image selection always yields a non-empty string — the fixed
placeholder URL when the page has no images at all — and every catalog
entry appended by `create_content_entry` carries a non-empty image URL. -/
theorem claim10_theorem (soup : PageDoc) (title dom magnet link : Str)
    (results : List Entry) (now nowYear : Str) :
    find_better_image soup title dom ≠ [] ∧
    (soup.imgs = [] → find_better_image soup title dom = placeholderImage) ∧
    ∃ e, create_content_entry soup title magnet link dom results now nowYear =
      results ++ [e] ∧ e.image ≠ [] := by
  refine ⟨fbi_ne soup title dom, ?_, ?_⟩
  · intro h
    simp [find_better_image, h, fbiLoop1, fbiLoop2]
  · refine ⟨_, rfl, ?_⟩
    show find_better_image soup (extract_proper_title title (some soup) link) dom ≠ []
    exact fbi_ne soup _ dom

/-- C10 witness: on a page with no images at all, the selected image is
exactly the placeholder, and the appended entry has a non-empty image. -/
theorem claim10_witness :
    find_better_image emptyDoc (lchars "Leo (2023)") (lchars "https://x.example")
      = placeholderImage ∧
    ∃ e, create_content_entry emptyDoc (lchars "Leo (2023)")
        (lchars "magnet:?xt=1") (lchars "https://x.example/t")
        (lchars "https://x.example") [] (lchars "2026-01-01") (lchars "2026") =
      [] ++ [e] ∧ e.image ≠ [] :=
  ⟨(claim10_theorem emptyDoc (lchars "Leo (2023)") (lchars "https://x.example")
      (lchars "magnet:?xt=1") (lchars "https://x.example/t") []
      (lchars "2026-01-01") (lchars "2026")).2.1 rfl,
   (claim10_theorem emptyDoc (lchars "Leo (2023)")
      (lchars "https://x.example")
      (lchars "magnet:?xt=1") (lchars "https://x.example/t") []
      (lchars "2026-01-01") (lchars "2026")).2.2⟩

/-! ## C2 — deduplication -/

theorem lookupA_eq_none {m : List (Str × Entry)} {k : Str} :
    lookupA m k = none ↔ ∀ p ∈ m, p.1 ≠ k := by
  induction m with
  | nil => exact ⟨fun _ p hp => absurd hp (List.not_mem_nil p), fun _ => rfl⟩
  | cons q rest ih =>
    obtain ⟨k0, v0⟩ := q
    by_cases hk : k0 = k
    · subst hk
      constructor
      · intro h
        simp only [lookupA] at h
        rw [if_pos trivial] at h
        exact absurd h (by simp)
      · intro h
        exact absurd rfl (h (k0, v0) (List.mem_cons_self _ _))
    · constructor
      · intro h p hp
        simp only [lookupA] at h
        rw [if_neg hk] at h
        rcases List.mem_cons.mp hp with heq | hmem
        · subst heq
          exact hk
        · exact ih.mp h p hmem
      · intro h
        simp only [lookupA]
        rw [if_neg hk]
        exact ih.mpr fun p hp => h p (List.mem_cons_of_mem _ hp)

theorem mem_of_lookupA {m : List (Str × Entry)} {k : Str} {v : Entry}
    (h : lookupA m k = some v) : (k, v) ∈ m := by
  induction m with
  | nil => cases h
  | cons q rest ih =>
    obtain ⟨k0, v0⟩ := q
    by_cases hk : k0 = k
    · subst hk
      simp only [lookupA] at h
      rw [if_pos trivial] at h
      injection h with h
      subst h
      exact List.mem_cons_self _ _
    · simp only [lookupA] at h
      rw [if_neg hk] at h
      exact List.mem_cons_of_mem _ (ih h)

theorem lookupA_of_mem_nodup {m : List (Str × Entry)} {k : Str} {v : Entry}
    (hnd : (m.map Prod.fst).Nodup) (h : (k, v) ∈ m) : lookupA m k = some v := by
  induction m with
  | nil => cases h
  | cons q rest ih =>
    obtain ⟨k0, v0⟩ := q
    rw [List.map_cons, List.nodup_cons] at hnd
    rcases List.mem_cons.mp h with heq | hmem
    · cases heq
      simp only [lookupA]
      rw [if_pos trivial]
    · have hk : k0 ≠ k := by
        intro hk
        subst hk
        exact hnd.1 (List.mem_map.mpr ⟨(k0, v), hmem, rfl⟩)
      simp only [lookupA]
      rw [if_neg hk]
      exact ih hnd.2 hmem

theorem replaceA_keys (m : List (Str × Entry)) (k : Str) (v : Entry) :
    (replaceA m k v).map Prod.fst = m.map Prod.fst := by
  induction m with
  | nil => rfl
  | cons q rest ih =>
    obtain ⟨k0, v0⟩ := q
    by_cases hk : k0 = k
    · simp only [replaceA]
      rw [if_pos hk]
      rfl
    · simp only [replaceA]
      rw [if_neg hk, List.map_cons, List.map_cons, ih]

theorem mem_replaceA {m : List (Str × Entry)} {k : Str} {v : Entry}
    {p : Str × Entry} (hnd : (m.map Prod.fst).Nodup) (hp : p ∈ replaceA m k v) :
    p = (k, v) ∨ (p ∈ m ∧ p.1 ≠ k) := by
  induction m with
  | nil => cases hp
  | cons q rest ih =>
    obtain ⟨k0, v0⟩ := q
    rw [List.map_cons, List.nodup_cons] at hnd
    by_cases hk : k0 = k
    · subst hk
      simp only [replaceA] at hp
      rw [if_pos trivial] at hp
      rcases List.mem_cons.mp hp with heq | hmem
      · exact Or.inl heq
      · refine Or.inr ⟨List.mem_cons_of_mem _ hmem, fun hpk => ?_⟩
        exact hnd.1 (hpk ▸ List.mem_map.mpr ⟨p, hmem, rfl⟩)
    · simp only [replaceA] at hp
      rw [if_neg hk] at hp
      rcases List.mem_cons.mp hp with heq | hmem
      · exact Or.inr ⟨heq ▸ List.mem_cons_self _ _, by simp [heq, hk]⟩
      · rcases ih hnd.2 hmem with h | ⟨h1, h2⟩
        · exact Or.inl h
        · exact Or.inr ⟨List.mem_cons_of_mem _ h1, h2⟩

theorem dedupInv_nil : DedupInv [] [] :=
  ⟨List.nodup_nil, fun p hp => absurd hp (List.not_mem_nil p),
   fun e he => absurd he (List.not_mem_nil e),
   fun p hp => absurd hp (List.not_mem_nil p)⟩

theorem dedupInv_step {processed : List Entry} {m : List (Str × Entry)}
    (it : Entry) (h : DedupInv processed m) :
    DedupInv (processed ++ [it]) (dedupeStep m it) := by
  obtain ⟨hA, hB, hC, hD⟩ := h
  unfold dedupeStep
  cases hlk : lookupA m it.magnet with
  | none =>
    have hnew : ∀ p ∈ m, p.1 ≠ it.magnet := lookupA_eq_none.mp hlk
    refine ⟨?_, ?_, ?_, ?_⟩
    · rw [List.map_append]
      refine List.Nodup.append hA (List.nodup_singleton _) ?_
      intro x hx hx'
      obtain ⟨p, hpm, hpk⟩ := List.mem_map.mp hx
      simp only [List.map_cons, List.map_nil, List.mem_singleton] at hx'
      exact hnew p hpm (hpk.symm ▸ hx' ▸ rfl)
    · intro p hp
      rcases List.mem_append.mp hp with hm | hn
      · exact hB p hm
      · simp only [List.mem_singleton] at hn
        subst hn
        rfl
    · intro e he
      rcases List.mem_append.mp he with hm | hn
      · obtain ⟨p, hpm, hpk⟩ := hC e hm
        exact ⟨p, List.mem_append_left _ hpm, hpk⟩
      · simp only [List.mem_singleton] at hn
        exact ⟨(it.magnet, it), List.mem_append_right _ (by simp), by rw [hn]⟩
    · intro p hp
      rcases List.mem_append.mp hp with hpm | hpn
      · obtain ⟨l₁, l₂, hfe, hl1, hl2⟩ := hD p hpm
        refine ⟨l₁, l₂, ?_, hl1, hl2⟩
        rw [List.filter_append, hfe]
        have hne : (it.magnet == p.1) = false := by
          simp only [beq_eq_false_iff_ne, ne_eq]
          exact fun hh => hnew p hpm hh.symm
        simp [List.filter, hne]
      · simp only [List.mem_singleton] at hpn
        subst hpn
        refine ⟨[], [], ?_, by simp, by simp⟩
        rw [List.filter_append]
        have hempty : processed.filter (fun x => x.magnet == it.magnet) = [] := by
          rw [List.filter_eq_nil_iff]
          intro x hx
          obtain ⟨p', hp', hpk⟩ := hC x hx
          simp only [beq_iff_eq]
          exact fun hxe => hnew p' hp' (hpk.trans hxe)
        rw [hempty]
        simp [List.filter]
  | some existing =>
    have hmem : (it.magnet, existing) ∈ m := mem_of_lookupA hlk
    show DedupInv (processed ++ [it])
      (if existing.clean_title.length < it.clean_title.length then
        replaceA m it.magnet it
      else m)
    by_cases hlen : existing.clean_title.length < it.clean_title.length
    · rw [if_pos hlen]
      refine ⟨?_, ?_, ?_, ?_⟩
      · rw [replaceA_keys]
        exact hA
      · intro p hp
        rcases mem_replaceA hA hp with heq | ⟨hpm, _⟩
        · subst heq
          rfl
        · exact hB p hpm
      · intro e he
        have hkeys : ∀ k', k' ∈ m.map Prod.fst →
            ∃ q ∈ replaceA m it.magnet it, q.1 = k' := by
          intro k' hk'
          rw [← replaceA_keys m it.magnet it] at hk'
          obtain ⟨q, hq, hqk⟩ := List.mem_map.mp hk'
          exact ⟨q, hq, hqk⟩
        rcases List.mem_append.mp he with hm | hn
        · obtain ⟨p, hpm, hpk⟩ := hC e hm
          obtain ⟨q, hq, hqk⟩ := hkeys p.1 (List.mem_map_of_mem Prod.fst hpm)
          exact ⟨q, hq, hqk.trans hpk⟩
        · simp only [List.mem_singleton] at hn
          obtain ⟨q, hq, hqk⟩ := hkeys it.magnet
            (List.mem_map.mpr ⟨(it.magnet, existing), hmem, rfl⟩)
          exact ⟨q, hq, by rw [hn, hqk]⟩
      · intro p hp
        rcases mem_replaceA hA hp with heq | ⟨hpm, hpk⟩
        · subst heq
          obtain ⟨l₁, l₂, hfe, hl1, hl2⟩ := hD _ hmem
          simp only at hfe ⊢
          refine ⟨l₁ ++ existing :: l₂, [], ?_, ?_, by simp⟩
          · rw [List.filter_append, hfe]
            simp [List.filter]
          · intro x hx
            rcases List.mem_append.mp hx with hx | hx
            · exact lt_trans (hl1 x hx) hlen
            · rcases List.mem_cons.mp hx with hx | hx
              · exact hx ▸ hlen
              · exact lt_of_le_of_lt (hl2 x hx) hlen
        · obtain ⟨l₁, l₂, hfe, hl1, hl2⟩ := hD p hpm
          refine ⟨l₁, l₂, ?_, hl1, hl2⟩
          rw [List.filter_append, hfe]
          have hne : (it.magnet == p.1) = false := by
            simp only [beq_eq_false_iff_ne, ne_eq]
            exact fun hh => hpk hh.symm
          simp [List.filter, hne]
    · rw [if_neg hlen]
      push_neg at hlen
      refine ⟨hA, hB, ?_, ?_⟩
      · intro e he
        rcases List.mem_append.mp he with hm | hn
        · exact hC e hm
        · simp only [List.mem_singleton] at hn
          exact ⟨(it.magnet, existing), hmem, by rw [hn]⟩
      · intro p hp
        by_cases hpk : p.1 = it.magnet
        · have hpair : (p.1, p.2) ∈ m := Prod.mk.eta ▸ hp
          have hlp : lookupA m p.1 = some p.2 := lookupA_of_mem_nodup hA hpair
          rw [hpk, hlk] at hlp
          have hex : p.2 = existing := by
            cases hlp
            rfl
          obtain ⟨l₁, l₂, hfe, hl1, hl2⟩ := hD p hp
          refine ⟨l₁, l₂ ++ [it], ?_, hl1, ?_⟩
          · rw [List.filter_append, hfe]
            have heq : (it.magnet == p.1) = true := by simp [beq_iff_eq, hpk]
            simp [List.filter, heq]
          · intro x hx
            rcases List.mem_append.mp hx with hx | hx
            · exact hl2 x hx
            · simp only [List.mem_singleton] at hx
              subst hx
              rw [hex]
              exact hlen
        · obtain ⟨l₁, l₂, hfe, hl1, hl2⟩ := hD p hp
          refine ⟨l₁, l₂, ?_, hl1, hl2⟩
          rw [List.filter_append, hfe]
          have hne : (it.magnet == p.1) = false := by
            simp only [beq_eq_false_iff_ne, ne_eq]
            exact fun hh => hpk hh.symm
          simp [List.filter, hne]

theorem dedupInv_fold : ∀ (l processed : List Entry) (m : List (Str × Entry)),
    DedupInv processed m → DedupInv (processed ++ l) (l.foldl dedupeStep m) := by
  intro l
  induction l with
  | nil =>
    intro processed m h
    simpa using h
  | cons a l ih =>
    intro processed m h
    have h' := ih (processed ++ [a]) (dedupeStep m a) (dedupInv_step a h)
    simpa [List.append_assoc] using h'

/-- C2: deduplication keeps exactly one entry per distinct magnet URI:
the output magnets are duplicate-free, every input magnet survives via
some output entry, each output entry is an input entry whose clean
title is at least as long as that of every input entry sharing its
magnet, and it is the first input entry attaining that maximal length
(all earlier same-magnet entries are strictly shorter). -/
theorem claim2_theorem (items : List Entry) :
    ((remove_duplicates items).map (fun e => e.magnet)).Nodup ∧
    (∀ e ∈ items, ∃ o ∈ remove_duplicates items, o.magnet = e.magnet) ∧
    (∀ o ∈ remove_duplicates items,
      o ∈ items ∧
      (∀ e ∈ items, e.magnet = o.magnet →
        e.clean_title.length ≤ o.clean_title.length) ∧
      ∃ l₁ l₂, items.filter (fun e => e.magnet == o.magnet) = l₁ ++ o :: l₂ ∧
        (∀ e ∈ l₁, e.clean_title.length < o.clean_title.length) ∧
        (∀ e ∈ l₂, e.clean_title.length ≤ o.clean_title.length)) := by
  obtain ⟨hA, hB, hC, hD⟩ :=
    by simpa using dedupInv_fold items [] [] dedupInv_nil
  have hout : remove_duplicates items = (items.foldl dedupeStep []).map (·.2) := rfl
  rw [hout]
  refine ⟨?_, ?_, ?_⟩
  · rw [List.map_map]
    have : (items.foldl dedupeStep []).map (fun p => p.2.magnet) =
        (items.foldl dedupeStep []).map Prod.fst :=
      List.map_congr_left fun p hp => hB p hp
    rw [show ((fun e => e.magnet) ∘ (·.2)) = fun (p : Str × Entry) => p.2.magnet
      from rfl, this]
    exact hA
  · intro e he
    obtain ⟨p, hpm, hpk⟩ := hC e he
    exact ⟨p.2, List.mem_map_of_mem _ hpm, (hB p hpm).trans hpk⟩
  · intro o ho
    obtain ⟨p, hpm, hpo⟩ := List.mem_map.mp ho
    obtain ⟨l₁, l₂, hfe, hl1, hl2⟩ := hD p hpm
    have hkey : p.1 = o.magnet := by rw [← hpo, ← hB p hpm]
    rw [hkey] at hfe
    subst hpo
    have homem : p.2 ∈ items.filter (fun e => e.magnet == p.2.magnet) := by
      rw [hfe]
      exact List.mem_append_right _ (List.mem_cons_self _ _)
    refine ⟨(List.mem_filter.mp homem).1, ?_, l₁, l₂, hfe, hl1, hl2⟩
    intro e he hemag
    have hef : e ∈ items.filter (fun x => x.magnet == p.2.magnet) :=
      List.mem_filter.mpr ⟨he, by simp [beq_iff_eq, hemag]⟩
    rw [hfe] at hef
    rcases List.mem_append.mp hef with hx | hx
    · exact le_of_lt (hl1 e hx)
    · rcases List.mem_cons.mp hx with hx | hx
      · exact hx ▸ le_refl _
      · exact hl2 e hx

/-- C2 witness: with two entries sharing one magnet, the surviving
entry carries that magnet. -/
theorem claim2_witness :
    ∃ o ∈ remove_duplicates [sampleEntry "Short" "m1",
      sampleEntry "Longer title x" "m1"],
      o.magnet = (sampleEntry "Short" "m1").magnet :=
  (claim2_theorem [sampleEntry "Short" "m1",
    sampleEntry "Longer title x" "m1"]).2.1 (sampleEntry "Short" "m1")
    (by simp)

end Magnet
